import Mathlib

/-!
Verification of the `conf` INI-style parser.

Shallow embedding of `conf.go`: a character-level state-machine lexer that
parses `[section]` / `key=value` configuration files into a nested
string map, plus the `Read` accessor.

The Go code reads one byte at a time from an `*os.File` (`lexer.get`),
collapses `\r\n` into `\n`, and peeks via a read followed by
`Seek(-1, 1)` (`lexer.look`).  We model the file as a positional stream
`Nat → ReadRes` together with an explicit position in the lexer state.
`io.ReadFull` either yields a byte or fails; the Go code checks only
`err != nil` (it does not distinguish end-of-file from an I/O error), so
the stream model keeps the two failure kinds separate and `readChr`
collapses them exactly as the code does.

`lexer.get` is recursive through `lexer.look` (a run of carriage returns
followed by a line feed collapses into one newline), and the parse loop
in `Open` does not terminate on every input (for example a file ending
in `#` then a lone `\r` re-reads the same position forever), so both
`get` and the machine loop take explicit fuel; terminal machine states
are fixed points of `step`, hence any sufficiently large fuel yields the
same terminal result.
-/

namespace conf

/-- Result of one positional byte read of the underlying stream: a byte,
end of file, or an I/O error carrying a message. -/
inductive ReadRes where
  | ok (c : Char) : ReadRes
  | eof : ReadRes
  | ioErr (msg : String) : ReadRes
deriving DecidableEq

/-- The lexer's view of one `io.ReadFull` call: the Go code tests only
`err != nil`, so end-of-file and I/O errors alike become "" (here `none`). -/
def readChr (s : Nat → ReadRes) (p : Nat) : Option Char :=
  match s p with
  | .ok c => some c
  | .eof => none
  | .ioErr _ => none

/-- Go `lexer.get`: read one character at position `p`.  A `\r` whose
lookahead (read then seek back one) yields `\n` restarts `get` at the
seeked-back position; otherwise the `\r` is returned at the seeked-back
position.  `Seek(-1, 1)` is `r.2 - 1` (Nat subtraction also matches the
no-op of seeking back from offset 0).  Fuel bounds the `\r`-recursion;
with fuel larger than the stream's run of carriage returns the `0` case
is never reached. -/
def get (s : Nat → ReadRes) : Nat → Nat → Option Char × Nat
  | 0, p => (none, p)
  | f + 1, p =>
    match readChr s p with
    | none => (none, p)
    | some c =>
      if c = '\r' then
        let r := get s f (p + 1)
        if r.1 = some '\n' then get s f (r.2 - 1) else (some '\r', r.2 - 1)
      else (some c, p + 1)

/-- Section → key → value table (`map[string]map[string]string`). -/
abbrev DataMap := List (String × List (String × String))

/-- Association-list lookup, modelling Go map indexing `m[k]`. -/
def find1 {α : Type} : List (String × α) → String → Option α
  | [], _ => none
  | (a, b) :: m, k => if a = k then some b else find1 m k

/-- Association-list store, modelling Go map assignment `m[k] = v`. -/
def set1 {α : Type} : List (String × α) → String → α → List (String × α)
  | [], k, v => [(k, v)]
  | (a, b) :: m, k, v => if a = k then (k, v) :: m else (a, b) :: set1 m k v

/-- Nested lookup `data[s][k]`; a missing section behaves like Go's nil
inner map: every key is absent. -/
def find2 (d : DataMap) (s k : String) : Option String :=
  match find1 d s with
  | none => none
  | some m => find1 m k

/-- Nested store `data[s][k] = v`.  (In Go, storing into a missing
section would be a nil-map write; the machine only stores after the
section was created in `doSection`, so that branch is unreachable and we
let it create the section.) -/
def set2 (d : DataMap) (s k v : String) : DataMap :=
  match find1 d s with
  | none => set1 d s (set1 [] k v)
  | some m => set1 d s (set1 m k v)

/-- The parsed document (`Conf`); the Go struct's `filename` field is
set once from the path argument and never read, so it is omitted. -/
structure Conf where
  data : DataMap
deriving DecidableEq

/-- Go `Conf.Read`: returns the pair `(value, error)`; absent section or
key yields the zero string together with the error message. -/
def Conf.Read (conf : Conf) (sec key : String) : String × Option String :=
  match find2 conf.data sec key with
  | none => ("", some "key or section does not exist")
  | some v => (v, none)

/-- Mutable fields of the Go `lexer`, plus the file position. -/
structure LexState where
  pos : Nat
  bufferSection : String
  bufferKey : String
  bufferValue : String
  bufferError : String
  buffer : String
  data : DataMap
deriving DecidableEq

/-- The state constants of the machine (`stateStart` … `stateEOF`). -/
inductive St where
  | stateStart | stateMid | stateComment | stateSection
  | stateKey | stateValue | stateError | stateEOF
deriving DecidableEq

/-- Go `lexer.add`: read one character, append it to the token buffer
(appending nothing when the read failed), and return it. -/
def add (s : Nat → ReadRes) (gf : Nat) (st : LexState) : Option Char × LexState :=
  let r := get s gf st.pos
  (r.1, { st with
            pos := r.2
            buffer := match r.1 with
                      | some c => st.buffer.push c
                      | none => st.buffer })

/-- Go `lexer.look`: read one character then `Seek(-1, 1)`.  At end of
stream the read consumes nothing but the seek still moves back one. -/
def look (s : Nat → ReadRes) (gf : Nat) (st : LexState) : Option Char × LexState :=
  let r := get s gf st.pos
  (r.1, { st with pos := r.2 - 1 })

/-- Go `lexer.doStart`. -/
def doStart (s : Nat → ReadRes) (gf : Nat) (st : LexState) : St × LexState :=
  match add s gf st with
  | (none, st) => (.stateEOF, st)
  | (some c, st) =>
    if c = ' ' ∨ c = '\t' ∨ c = '\n' then (.stateStart, st)
    else if c = '[' then (.stateSection, { st with buffer := "" })
    else if c = '#' ∨ c = ';' then (.stateComment, st)
    else (.stateError, { st with bufferError := "key not in section: " ++ st.buffer })

/-- Go `lexer.doMid`. -/
def doMid (s : Nat → ReadRes) (gf : Nat) (st : LexState) : St × LexState :=
  match look s gf st with
  | (none, st) => (.stateEOF, st)
  | (some c, st) =>
    if c = ' ' ∨ c = '\t' ∨ c = '\n' then (.stateMid, (add s gf st).2)
    else if c = '[' then (.stateSection, { (add s gf st).2 with buffer := "" })
    else if c = '#' ∨ c = ';' then (.stateComment, (add s gf st).2)
    else (.stateKey, { st with buffer := "" })

/-- Go `lexer.doComment`. -/
def doComment (s : Nat → ReadRes) (gf : Nat) (st : LexState) : St × LexState :=
  match add s gf st with
  | (none, st) => (.stateEOF, st)
  | (some c, st) =>
    if c = '\n' then
      if st.bufferSection = "" then (.stateStart, st) else (.stateMid, st)
    else (.stateComment, st)

/-- Go `lexer.doSection`.  Note the order on `]`: `bufferSection` is set
by the flush before the duplicate check. -/
def doSection (s : Nat → ReadRes) (gf : Nat) (st : LexState) : St × LexState :=
  match look s gf st with
  | (none, st) =>
    let st := (add s gf st).2
    (.stateError, { st with bufferError := "broken section name: " ++ st.buffer })
  | (some c, st) =>
    if c = '\n' then
      let st := (add s gf st).2
      (.stateError, { st with bufferError := "broken section name: " ++ st.buffer })
    else if c = ']' then
      let sec := st.buffer
      let st := { st with buffer := "", bufferSection := sec }
      if (find1 st.data sec).isSome then
        (.stateError, { st with bufferError := "duplicate section: " ++ sec })
      else
        (.stateMid, (add s gf { st with data := set1 st.data sec [] }).2)
    else (.stateSection, (add s gf st).2)

/-- Go `lexer.doKey`.  On `=` the flush sets `bufferKey` before the
duplicate check; then the `=` is consumed and the buffer discarded. -/
def doKey (s : Nat → ReadRes) (gf : Nat) (st : LexState) : St × LexState :=
  match look s gf st with
  | (none, st) =>
    let st := (add s gf st).2
    (.stateError, { st with bufferError := "broken key name: " ++ st.buffer })
  | (some c, st) =>
    if c = '\n' then
      let st := (add s gf st).2
      (.stateError, { st with bufferError := "broken key name: " ++ st.buffer })
    else if c = '=' then
      let k := st.buffer
      let st := { st with buffer := "", bufferKey := k }
      if (find2 st.data st.bufferSection k).isSome then
        (.stateError, { st with bufferError := "duplicate key in section: " ++ k })
      else
        (.stateValue, { (add s gf st).2 with buffer := "" })
    else (.stateKey, (add s gf st).2)

/-- Go `lexer.doValue`.  On newline or end of stream: flush the value,
consume (at end of stream `look`'s seek-back makes this re-read the
previous byte into the discarded buffer), then store. -/
def doValue (s : Nat → ReadRes) (gf : Nat) (st : LexState) : St × LexState :=
  match look s gf st with
  | (none, st) =>
    let v := st.buffer
    let st := (add s gf { st with buffer := "", bufferValue := v }).2
    (.stateMid, { st with data := set2 st.data st.bufferSection st.bufferKey v })
  | (some c, st) =>
    if c = '\n' then
      let v := st.buffer
      let st := (add s gf { st with buffer := "", bufferValue := v }).2
      (.stateMid, { st with data := set2 st.data st.bufferSection st.bufferKey v })
    else (.stateValue, (add s gf st).2)

/-- One iteration of `Open`'s dispatch loop; `stateError` and
`stateEOF` are the loop's exits, modelled as fixed points. -/
def step (s : Nat → ReadRes) (gf : Nat) : St × LexState → St × LexState
  | (.stateStart, st) => doStart s gf st
  | (.stateMid, st) => doMid s gf st
  | (.stateComment, st) => doComment s gf st
  | (.stateSection, st) => doSection s gf st
  | (.stateKey, st) => doKey s gf st
  | (.stateValue, st) => doValue s gf st
  | (.stateError, st) => (.stateError, st)
  | (.stateEOF, st) => (.stateEOF, st)

/-- Iterate `step`. -/
def run (s : Nat → ReadRes) (gf : Nat) : Nat → St × LexState → St × LexState
  | 0, t => t
  | f + 1, t => run s gf f (step s gf t)

/-- The zero-initialised lexer of `Open`. -/
def initState : LexState := ⟨0, "", "", "", "", "", []⟩

/-- The two return sites of `Open`'s loop: `(nil, errors.New(bufferError))`
at `stateError`, `(conf, nil)` at `stateEOF`; `none` while still running. -/
def extract : St × LexState → Option (Option Conf × Option String)
  | (.stateError, st) => some (none, some st.bufferError)
  | (.stateEOF, st) => some (some ⟨st.data⟩, none)
  | _ => none

/-- The parse of stream `s` (with per-read fuel `gf`) terminates with
the Go return pair `r`. -/
def OpensS (s : Nat → ReadRes) (gf : Nat) (r : Option Conf × Option String) : Prop :=
  ∃ f, extract (run s gf f (.stateStart, initState)) = some r

/-- A list of characters as a positional stream: in-range reads succeed,
out-of-range reads are end-of-file. -/
def listStream (l : List Char) : Nat → ReadRes :=
  fun p =>
    match l.get? p with
    | some c => .ok c
    | none => .eof

/-- Parsing a concrete character list.  Per-read fuel `l.length + 2`
dominates every carriage-return run in `l`, so `get` never exhausts it. -/
def Opens (l : List Char) (r : Option Conf × Option String) : Prop :=
  OpensS (listStream l) (l.length + 2) r

/-- Characters that a state consumes into the buffer without leaving the
state: any character except the state's terminators (and `\r`, whose
stream-level normalization is handled separately). -/
def plainOK : St → Char → Prop
  | .stateComment, c => c ≠ '\n' ∧ c ≠ '\r'
  | .stateSection, c => c ≠ '\n' ∧ c ≠ ']' ∧ c ≠ '\r'
  | .stateKey, c => c ≠ '\n' ∧ c ≠ '=' ∧ c ≠ '\r'
  | .stateValue, c => c ≠ '\n' ∧ c ≠ '\r'
  | _, _ => False

/-- A whitespace-only character or a full-line `#`/`;` comment — the
material claimed to be skippable between sections and key/value lines. -/
def SkipChunk (xs : List Char) : Prop :=
  (∃ c, xs = [c] ∧ (c = ' ' ∨ c = '\t' ∨ c = '\n')) ∨
  (∃ h body, xs = h :: body ++ ['\n'] ∧ (h = '#' ∨ h = ';') ∧
    ∀ b ∈ body, b ≠ '\n' ∧ b ≠ '\r')

/-- Characters allowed inside a `[section]` name by the grammar. -/
abbrev sectionNameOK (s : List Char) : Prop := ∀ c ∈ s, c ≠ '\n' ∧ c ≠ ']' ∧ c ≠ '\r'

/-- Characters allowed inside a key name by the grammar. -/
abbrev keyCharsOK (k : List Char) : Prop := ∀ c ∈ k, c ≠ '\n' ∧ c ≠ '=' ∧ c ≠ '\r'

/-- The first character of a key must not be one of the characters the
MID state treats specially. -/
abbrev keyStartOK (k : List Char) : Prop :=
  ∀ c ∈ k.take 1,
    c ≠ ' ' ∧ c ≠ '\t' ∧ c ≠ '\n' ∧ c ≠ '[' ∧ c ≠ '#' ∧ c ≠ ';' ∧ c ≠ '\r'

/-- Characters allowed inside a value by the grammar. -/
abbrev valueCharsOK (v : List Char) : Prop := ∀ c ∈ v, c ≠ '\n' ∧ c ≠ '\r'

/-! ## Basic reading lemmas -/

theorem get_ok {s : Nat → ReadRes} {p : Nat} {c : Char} {gf : Nat}
    (h : readChr s p = some c) (hc : c ≠ '\r') (hgf : 1 ≤ gf) :
    get s gf p = (some c, p + 1) := by
  obtain ⟨f, rfl⟩ : ∃ f, gf = f + 1 := ⟨gf - 1, (Nat.succ_pred_eq_of_pos hgf).symm⟩
  simp [get, h, hc]

theorem get_fail {s : Nat → ReadRes} {p gf : Nat}
    (h : readChr s p = none) : get s gf p = (none, p) := by
  cases gf with
  | zero => simp [get]
  | succ f => simp [get, h]

theorem readChr_list (l : List Char) (p : Nat) :
    readChr (listStream l) p = l.get? p := by
  unfold readChr listStream
  cases l.get? p <;> simp

theorem getL_ok {l : List Char} {p : Nat} {c : Char} {gf : Nat}
    (h : l.get? p = some c) (hc : c ≠ '\r') (hgf : 1 ≤ gf) :
    get (listStream l) gf p = (some c, p + 1) :=
  get_ok (by rw [readChr_list, h]) hc hgf

theorem getL_none {l : List Char} {p gf : Nat}
    (h : l.get? p = none) : get (listStream l) gf p = (none, p) :=
  get_fail (by rw [readChr_list, h])

/-! ## String buffer arithmetic -/

theorem push_mk (b : String) (c : Char) : b.push c = b ++ ⟨[c]⟩ := by
  cases b; rfl

theorem mk_append_mk (a b : List Char) : (⟨a⟩ : String) ++ ⟨b⟩ = ⟨a ++ b⟩ := rfl

theorem append_mk_mk (b : String) (x y : List Char) :
    b ++ (⟨x⟩ : String) ++ ⟨y⟩ = b ++ ⟨x ++ y⟩ := by
  cases b with
  | mk d => rw [mk_append_mk, mk_append_mk, mk_append_mk, List.append_assoc]

theorem empty_append_mk (x : List Char) : ("" : String) ++ ⟨x⟩ = ⟨x⟩ := rfl

theorem append_empty_str (b : String) : b ++ ("" : String) = b := by
  cases b with
  | mk d => rw [show ("" : String) = ⟨[]⟩ from rfl, mk_append_mk, List.append_nil]

/-! ## Positional lookup in concatenations -/

theorem get?_at (A : List Char) (c : Char) (B : List Char) :
    (A ++ c :: B).get? A.length = some c := by
  induction A with
  | nil => rfl
  | cons a A ih => simpa using ih

theorem get?_end (A : List Char) : A.get? A.length = none :=
  List.get?_eq_none.mpr (Nat.le_refl _)

/-! ## Run arithmetic and terminal states -/

theorem run_add (s : Nat → ReadRes) (gf m n : Nat) (t : St × LexState) :
    run s gf (m + n) t = run s gf n (run s gf m t) := by
  induction m generalizing t with
  | zero => rw [Nat.zero_add]; rfl
  | succ m ih => rw [Nat.succ_add]; exact ih (step s gf t)

theorem step_of_extract {s : Nat → ReadRes} {gf : Nat} {t : St × LexState}
    {r : Option Conf × Option String} (h : extract t = some r) :
    step s gf t = t := by
  obtain ⟨tag, st⟩ := t
  cases tag <;> simp_all [extract, step]

theorem run_of_extract {s : Nat → ReadRes} {gf : Nat} {t : St × LexState}
    {r : Option Conf × Option String} (h : extract t = some r) (f : Nat) :
    run s gf f t = t := by
  induction f with
  | zero => rfl
  | succ f ih => rw [show f + 1 = 1 + f from Nat.add_comm f 1, run_add]
                 simpa [run, step_of_extract h] using ih

theorem opensS_unique {s : Nat → ReadRes} {gf : Nat}
    {r r' : Option Conf × Option String}
    (h : OpensS s gf r) (h' : OpensS s gf r') : r = r' := by
  obtain ⟨f, hf⟩ := h
  obtain ⟨f', hf'⟩ := h'
  rcases Nat.le_total f f' with hle | hle
  · obtain ⟨d, rfl⟩ := Nat.le.dest hle
    rw [run_add, run_of_extract hf d] at hf'
    rw [hf] at hf'
    exact Option.some_inj.mp hf'
  · obtain ⟨d, rfl⟩ := Nat.le.dest hle
    rw [run_add, run_of_extract hf' d] at hf
    rw [hf'] at hf
    exact (Option.some_inj.mp hf).symm

/-! ## One-step lemmas for each state and character class -/

theorem step_start_eof {l : List Char} {gf : Nat} {st : LexState}
    (h : l.get? st.pos = none) :
    step (listStream l) gf (.stateStart, st) = (.stateEOF, st) := by
  simp [step, doStart, add, getL_none h]

theorem step_start_ws {l : List Char} {gf : Nat} {st : LexState} {c : Char}
    (h : l.get? st.pos = some c) (hc : c = ' ' ∨ c = '\t' ∨ c = '\n') (hgf : 1 ≤ gf) :
    step (listStream l) gf (.stateStart, st) =
      (.stateStart, { st with pos := st.pos + 1, buffer := st.buffer.push c }) := by
  rcases hc with rfl | rfl | rfl <;>
    simp [step, doStart, add, getL_ok h (by decide) hgf]

theorem step_start_open {l : List Char} {gf : Nat} {st : LexState}
    (h : l.get? st.pos = some '[') (hgf : 1 ≤ gf) :
    step (listStream l) gf (.stateStart, st) =
      (.stateSection, { st with pos := st.pos + 1, buffer := "" }) := by
  simp [step, doStart, add, getL_ok h (by decide) hgf]

theorem step_start_comment {l : List Char} {gf : Nat} {st : LexState} {c : Char}
    (h : l.get? st.pos = some c) (hc : c = '#' ∨ c = ';') (hgf : 1 ≤ gf) :
    step (listStream l) gf (.stateStart, st) =
      (.stateComment, { st with pos := st.pos + 1, buffer := st.buffer.push c }) := by
  rcases hc with rfl | rfl <;>
    simp [step, doStart, add, getL_ok h (by decide) hgf]

theorem step_start_err {l : List Char} {gf : Nat} {st : LexState} {c : Char}
    (h : l.get? st.pos = some c)
    (hc : c ≠ ' ' ∧ c ≠ '\t' ∧ c ≠ '\n' ∧ c ≠ '[' ∧ c ≠ '#' ∧ c ≠ ';' ∧ c ≠ '\r')
    (hgf : 1 ≤ gf) :
    step (listStream l) gf (.stateStart, st) =
      (.stateError, { st with
                        pos := st.pos + 1
                        buffer := st.buffer.push c
                        bufferError := "key not in section: " ++ st.buffer.push c }) := by
  obtain ⟨h1, h2, h3, h4, h5, h6, h7⟩ := hc
  simp [step, doStart, add, getL_ok h h7 hgf, h1, h2, h3, h4, h5, h6]

theorem step_mid_eof {l : List Char} {gf : Nat} {st : LexState}
    (h : l.get? st.pos = none) :
    step (listStream l) gf (.stateMid, st) = (.stateEOF, { st with pos := st.pos - 1 }) := by
  simp [step, doMid, look, getL_none h]

theorem step_mid_ws {l : List Char} {gf : Nat} {st : LexState} {c : Char}
    (h : l.get? st.pos = some c) (hc : c = ' ' ∨ c = '\t' ∨ c = '\n') (hgf : 1 ≤ gf) :
    step (listStream l) gf (.stateMid, st) =
      (.stateMid, { st with pos := st.pos + 1, buffer := st.buffer.push c }) := by
  rcases hc with rfl | rfl | rfl <;>
    simp [step, doMid, look, add, getL_ok h (by decide) hgf]

theorem step_mid_open {l : List Char} {gf : Nat} {st : LexState}
    (h : l.get? st.pos = some '[') (hgf : 1 ≤ gf) :
    step (listStream l) gf (.stateMid, st) =
      (.stateSection, { st with pos := st.pos + 1, buffer := "" }) := by
  simp [step, doMid, look, add, getL_ok h (by decide) hgf]

theorem step_mid_comment {l : List Char} {gf : Nat} {st : LexState} {c : Char}
    (h : l.get? st.pos = some c) (hc : c = '#' ∨ c = ';') (hgf : 1 ≤ gf) :
    step (listStream l) gf (.stateMid, st) =
      (.stateComment, { st with pos := st.pos + 1, buffer := st.buffer.push c }) := by
  rcases hc with rfl | rfl <;>
    simp [step, doMid, look, add, getL_ok h (by decide) hgf]

theorem step_mid_key {l : List Char} {gf : Nat} {st : LexState} {c : Char}
    (h : l.get? st.pos = some c)
    (hc : c ≠ ' ' ∧ c ≠ '\t' ∧ c ≠ '\n' ∧ c ≠ '[' ∧ c ≠ '#' ∧ c ≠ ';' ∧ c ≠ '\r')
    (hgf : 1 ≤ gf) :
    step (listStream l) gf (.stateMid, st) = (.stateKey, { st with buffer := "" }) := by
  obtain ⟨h1, h2, h3, h4, h5, h6, h7⟩ := hc
  simp [step, doMid, look, getL_ok h h7 hgf, h1, h2, h3, h4, h5, h6]

theorem step_comment_other {l : List Char} {gf : Nat} {st : LexState} {c : Char}
    (h : l.get? st.pos = some c) (hc : c ≠ '\n' ∧ c ≠ '\r') (hgf : 1 ≤ gf) :
    step (listStream l) gf (.stateComment, st) =
      (.stateComment, { st with pos := st.pos + 1, buffer := st.buffer.push c }) := by
  simp [step, doComment, add, getL_ok h hc.2 hgf, hc.1]

theorem step_comment_nl {l : List Char} {gf : Nat} {st : LexState}
    (h : l.get? st.pos = some '\n') (hgf : 1 ≤ gf) :
    step (listStream l) gf (.stateComment, st) =
      (if st.bufferSection = "" then St.stateStart else St.stateMid,
       { st with pos := st.pos + 1, buffer := st.buffer.push '\n' }) := by
  by_cases hs : st.bufferSection = "" <;>
    simp [step, doComment, add, getL_ok h (by decide) hgf, hs]

theorem step_section_char {l : List Char} {gf : Nat} {st : LexState} {c : Char}
    (h : l.get? st.pos = some c) (hc : c ≠ '\n' ∧ c ≠ ']' ∧ c ≠ '\r') (hgf : 1 ≤ gf) :
    step (listStream l) gf (.stateSection, st) =
      (.stateSection, { st with pos := st.pos + 1, buffer := st.buffer.push c }) := by
  simp [step, doSection, look, add, getL_ok h hc.2.2 hgf, hc.1, hc.2.1]

theorem step_section_close_new {l : List Char} {gf : Nat} {st : LexState}
    (h : l.get? st.pos = some ']') (hdup : find1 st.data st.buffer = none) (hgf : 1 ≤ gf) :
    step (listStream l) gf (.stateSection, st) =
      (.stateMid, { st with
                      pos := st.pos + 1
                      buffer := "]"
                      bufferSection := st.buffer
                      data := set1 st.data st.buffer [] }) := by
  simp [step, doSection, look, add, getL_ok h (by decide) hgf, hdup]
  rfl

theorem step_key_char {l : List Char} {gf : Nat} {st : LexState} {c : Char}
    (h : l.get? st.pos = some c) (hc : c ≠ '\n' ∧ c ≠ '=' ∧ c ≠ '\r') (hgf : 1 ≤ gf) :
    step (listStream l) gf (.stateKey, st) =
      (.stateKey, { st with pos := st.pos + 1, buffer := st.buffer.push c }) := by
  simp [step, doKey, look, add, getL_ok h hc.2.2 hgf, hc.1, hc.2.1]

theorem step_key_eq_new {l : List Char} {gf : Nat} {st : LexState}
    (h : l.get? st.pos = some '=')
    (hdup : find2 st.data st.bufferSection st.buffer = none) (hgf : 1 ≤ gf) :
    step (listStream l) gf (.stateKey, st) =
      (.stateValue, { st with
                        pos := st.pos + 1
                        buffer := ""
                        bufferKey := st.buffer }) := by
  simp [step, doKey, look, add, getL_ok h (by decide) hgf, hdup]

theorem step_key_eq_dup {l : List Char} {gf : Nat} {st : LexState} {v : String}
    (h : l.get? st.pos = some '=')
    (hdup : find2 st.data st.bufferSection st.buffer = some v) (hgf : 1 ≤ gf) :
    step (listStream l) gf (.stateKey, st) =
      (.stateError, { st with
                        buffer := ""
                        bufferKey := st.buffer
                        bufferError := "duplicate key in section: " ++ st.buffer }) := by
  simp [step, doKey, look, add, getL_ok h (by decide) hgf, hdup]

theorem step_value_char {l : List Char} {gf : Nat} {st : LexState} {c : Char}
    (h : l.get? st.pos = some c) (hc : c ≠ '\n' ∧ c ≠ '\r') (hgf : 1 ≤ gf) :
    step (listStream l) gf (.stateValue, st) =
      (.stateValue, { st with pos := st.pos + 1, buffer := st.buffer.push c }) := by
  simp [step, doValue, look, add, getL_ok h hc.2 hgf, hc.1]

theorem step_value_nl {l : List Char} {gf : Nat} {st : LexState}
    (h : l.get? st.pos = some '\n') (hgf : 1 ≤ gf) :
    step (listStream l) gf (.stateValue, st) =
      (.stateMid, { st with
                      pos := st.pos + 1
                      buffer := "\n"
                      bufferValue := st.buffer
                      data := set2 st.data st.bufferSection st.bufferKey st.buffer }) := by
  simp [step, doValue, look, add, getL_ok h (by decide) hgf]
  rfl

theorem step_value_eof {l : List Char} {gf : Nat} {st : LexState} {d : Char}
    (h : l.get? st.pos = none) (h1 : 1 ≤ st.pos)
    (hd : l.get? (st.pos - 1) = some d) (hdr : d ≠ '\r') (hgf : 1 ≤ gf) :
    step (listStream l) gf (.stateValue, st) =
      (.stateMid, { st with
                      buffer := ⟨[d]⟩
                      bufferValue := st.buffer
                      data := set2 st.data st.bufferSection st.bufferKey st.buffer }) := by
  simp only [step, doValue, look, getL_none h]
  simp [add, getL_ok hd hdr hgf, Nat.sub_add_cancel h1, String.push]

/-! ## Multi-step runs over plain character segments -/

theorem run_zero (s : Nat → ReadRes) (gf : Nat) (t : St × LexState) :
    run s gf 0 t = t := rfl

theorem run_succ (s : Nat → ReadRes) (gf f : Nat) (t : St × LexState) :
    run s gf (f + 1) t = run s gf f (step s gf t) := rfl

theorem run_one (s : Nat → ReadRes) (gf : Nat) (t : St × LexState) :
    run s gf 1 t = step s gf t := rfl

theorem step_plain {l : List Char} {gf : Nat} {st : LexState} {tag : St} {c : Char}
    (h : l.get? st.pos = some c) (hok : plainOK tag c) (hgf : 1 ≤ gf) :
    step (listStream l) gf (tag, st) =
      (tag, { st with pos := st.pos + 1, buffer := st.buffer.push c }) := by
  cases tag with
  | stateComment => exact step_comment_other h hok hgf
  | stateSection => exact step_section_char h hok hgf
  | stateKey => exact step_key_char h hok hgf
  | stateValue => exact step_value_char h hok hgf
  | stateStart => exact hok.elim
  | stateMid => exact hok.elim
  | stateError => exact hok.elim
  | stateEOF => exact hok.elim

theorem run_plain (gf : Nat) (tag : St) (xs : List Char) :
    ∀ (pre rest : List Char) (st : LexState),
      st.pos = pre.length →
      (∀ c ∈ xs, plainOK tag c) → 1 ≤ gf →
      run (listStream (pre ++ xs ++ rest)) gf xs.length (tag, st) =
        (tag, { st with pos := st.pos + xs.length, buffer := st.buffer ++ ⟨xs⟩ }) := by
  induction xs with
  | nil =>
    intro pre rest st hpos hxs hgf
    simp [run_zero, append_empty_str]
  | cons x xs ih =>
    intro pre rest st hpos hxs hgf
    have hx : (pre ++ (x :: xs) ++ rest).get? st.pos = some x := by
      rw [hpos, List.append_assoc]
      exact get?_at pre x (xs ++ rest)
    simp only [List.length_cons]
    rw [show xs.length + 1 = 1 + xs.length from Nat.add_comm _ _, run_add, run_succ,
        run_zero, step_plain hx (hxs x (by simp)) hgf]
    have hrearr : pre ++ (x :: xs) ++ rest = (pre ++ [x]) ++ xs ++ rest := by simp
    rw [hrearr]
    rw [ih (pre ++ [x]) rest _ (by simp [hpos]) (fun c hc => hxs c (by simp [hc])) hgf]
    have hbuf : st.buffer.push x ++ (⟨xs⟩ : String) = st.buffer ++ ⟨x :: xs⟩ := by
      rw [push_mk, append_mk_mk]; rfl
    have hpos2 : st.pos + 1 + xs.length = st.pos + (1 + xs.length) := by omega
    simp [hbuf, hpos2]

/-! ## Line-level runs: section headers and key/value lines -/

theorem run_open_section (gf : Nat) (s pre rest : List Char) (st : LexState)
    (hpos : st.pos = pre.length) (hs : sectionNameOK s)
    (hdup : find1 st.data ⟨s⟩ = none) (hgf : 1 ≤ gf) :
    run (listStream (pre ++ ('[' :: s ++ [']']) ++ rest)) gf (s.length + 2)
        (.stateStart, st) =
      (.stateMid, { st with
                      pos := st.pos + (s.length + 2)
                      buffer := "]"
                      bufferSection := ⟨s⟩
                      data := set1 st.data ⟨s⟩ [] }) := by
  have h0 : (pre ++ ('[' :: s ++ [']']) ++ rest).get? st.pos = some '[' := by
    rw [hpos, List.append_assoc]
    exact get?_at pre '[' ((s ++ [']']) ++ rest)
  rw [show s.length + 2 = 1 + (s.length + 1) by omega, run_add, run_one,
      step_start_open h0 hgf]
  rw [run_add (listStream (pre ++ ('[' :: s ++ [']']) ++ rest)) gf s.length 1]
  have hL1 : pre ++ ('[' :: s ++ [']']) ++ rest = (pre ++ ['[']) ++ s ++ (']' :: rest) := by
    simp
  have hplain := run_plain gf .stateSection s (pre ++ ['[']) (']' :: rest)
    { st with pos := st.pos + 1, buffer := "" }
    (by simp [hpos]) (fun c hc => hs c hc) hgf
  rw [← hL1] at hplain
  rw [hplain]
  have hcl : (pre ++ ('[' :: s ++ [']']) ++ rest).get? (st.pos + 1 + s.length) = some ']' := by
    have : st.pos + 1 + s.length = ((pre ++ ['[']) ++ s).length := by
      simp [hpos]; omega
    rw [this, hL1]
    exact get?_at ((pre ++ ['[']) ++ s) ']' rest
  rw [run_one,
      step_section_close_new (by simpa using hcl) (by simpa [empty_append_mk] using hdup) hgf]
  have harith : st.pos + 1 + s.length + 1 = st.pos + (1 + (s.length + 1)) := by omega
  simp [empty_append_mk, harith]

theorem run_kv_line (gf : Nat) (k v pre rest : List Char) (st : LexState)
    (hpos : st.pos = pre.length) (hk : keyCharsOK k) (hk0 : keyStartOK k)
    (hkne : k ≠ []) (hv : valueCharsOK v)
    (hdup : find2 st.data st.bufferSection ⟨k⟩ = none) (hgf : 1 ≤ gf) :
    run (listStream (pre ++ (k ++ '=' :: v ++ ['\n']) ++ rest)) gf
        (k.length + v.length + 3) (.stateMid, st) =
      (.stateMid, { st with
                      pos := st.pos + (k.length + v.length + 2)
                      buffer := "\n"
                      bufferKey := ⟨k⟩
                      bufferValue := ⟨v⟩
                      data := set2 st.data st.bufferSection ⟨k⟩ ⟨v⟩ }) := by
  obtain ⟨k0, k', rfl⟩ : ∃ k0 k', k = k0 :: k' := by
    cases k with
    | nil => exact absurd rfl hkne
    | cons a b => exact ⟨a, b, rfl⟩
  have h0 : (pre ++ ((k0 :: k') ++ '=' :: v ++ ['\n']) ++ rest).get? st.pos = some k0 := by
    rw [hpos, List.append_assoc]
    exact get?_at pre k0 ((k' ++ '=' :: v ++ ['\n']) ++ rest)
  rw [show (k0 :: k').length + v.length + 3 = 1 + ((k0 :: k').length + v.length + 2) by simp; omega,
      run_add, run_one, step_mid_key h0 (hk0 k0 (by simp)) hgf]
  rw [show (k0 :: k').length + v.length + 2 = (k0 :: k').length + (1 + (v.length + 1)) by simp; omega,
      run_add (listStream (pre ++ ((k0 :: k') ++ '=' :: v ++ ['\n']) ++ rest)) gf
        (k0 :: k').length (1 + (v.length + 1))]
  have hL1 : pre ++ ((k0 :: k') ++ '=' :: v ++ ['\n']) ++ rest =
      pre ++ (k0 :: k') ++ ('=' :: (v ++ ['\n']) ++ rest) := by simp
  have hplain := run_plain gf .stateKey (k0 :: k') pre ('=' :: (v ++ ['\n']) ++ rest)
    { st with buffer := "" } (by simp [hpos])
    (fun c hc => hk c hc) hgf
  rw [show pre ++ (k0 :: k') ++ ('=' :: (v ++ ['\n']) ++ rest) =
        pre ++ ((k0 :: k') ++ '=' :: v ++ ['\n']) ++ rest by simp] at hplain
  rw [hplain]
  have heq : (pre ++ ((k0 :: k') ++ '=' :: v ++ ['\n']) ++ rest).get?
      (st.pos + (k0 :: k').length) = some '=' := by
    have h2 : st.pos + (k0 :: k').length = (pre ++ (k0 :: k')).length := by simp [hpos]
    rw [h2, hL1]
    exact get?_at (pre ++ (k0 :: k')) '=' ((v ++ ['\n']) ++ rest)
  rw [run_add (listStream (pre ++ ((k0 :: k') ++ '=' :: v ++ ['\n']) ++ rest)) gf
        1 (v.length + 1), run_one,
      step_key_eq_new (by simpa using heq) (by simpa [empty_append_mk] using hdup) hgf]
  rw [run_add (listStream (pre ++ ((k0 :: k') ++ '=' :: v ++ ['\n']) ++ rest)) gf
        v.length 1]
  have hplain2 := run_plain gf .stateValue v (pre ++ (k0 :: k') ++ ['='])
    ('\n' :: rest)
    { st with
        pos := st.pos + (k0 :: k').length + 1
        buffer := ""
        bufferKey := "" ++ (⟨k0 :: k'⟩ : String) }
    (by simp [hpos]; omega) (fun c hc => hv c hc) hgf
  rw [show pre ++ (k0 :: k') ++ ['='] ++ v ++ ('\n' :: rest) =
        pre ++ ((k0 :: k') ++ '=' :: v ++ ['\n']) ++ rest by simp] at hplain2
  rw [hplain2]
  have hnl : (pre ++ ((k0 :: k') ++ '=' :: v ++ ['\n']) ++ rest).get?
      (st.pos + (k0 :: k').length + 1 + v.length) = some '\n' := by
    have h3 : st.pos + (k0 :: k').length + 1 + v.length =
        (pre ++ (k0 :: k') ++ ['='] ++ v).length := by simp [hpos]; omega
    rw [h3, show pre ++ ((k0 :: k') ++ '=' :: v ++ ['\n']) ++ rest =
        (pre ++ (k0 :: k') ++ ['='] ++ v) ++ '\n' :: rest by simp]
    exact get?_at (pre ++ (k0 :: k') ++ ['='] ++ v) '\n' rest
  rw [run_one, step_value_nl (by simpa using hnl) hgf]
  simp [empty_append_mk]
  omega

theorem run_kv_eof (gf : Nat) (k v pre : List Char) (st : LexState)
    (hpos : st.pos = pre.length) (hk : keyCharsOK k) (hk0 : keyStartOK k)
    (hkne : k ≠ []) (hv : valueCharsOK v)
    (hdup : find2 st.data st.bufferSection ⟨k⟩ = none) (hgf : 1 ≤ gf) :
    ∃ st', run (listStream (pre ++ k ++ '=' :: v)) gf (k.length + v.length + 4)
        (.stateMid, st) = (.stateEOF, st') ∧
      st'.data = set2 st.data st.bufferSection ⟨k⟩ ⟨v⟩ ∧
      st'.bufferSection = st.bufferSection := by
  obtain ⟨k0, k', rfl⟩ : ∃ k0 k', k = k0 :: k' := by
    cases k with
    | nil => exact absurd rfl hkne
    | cons a b => exact ⟨a, b, rfl⟩
  have h0 : (pre ++ (k0 :: k') ++ '=' :: v).get? st.pos = some k0 := by
    rw [hpos, List.append_assoc]
    exact get?_at pre k0 (k' ++ '=' :: v)
  rw [show (k0 :: k').length + v.length + 4 = 1 + ((k0 :: k').length + v.length + 3) by
        simp; omega,
      run_add, run_one, step_mid_key h0 (hk0 k0 (by simp)) hgf]
  rw [show (k0 :: k').length + v.length + 3 = (k0 :: k').length + (1 + (v.length + 2)) by
        simp; omega,
      run_add (listStream (pre ++ (k0 :: k') ++ '=' :: v)) gf
        (k0 :: k').length (1 + (v.length + 2))]
  have hplain := run_plain gf .stateKey (k0 :: k') pre ('=' :: v)
    { st with buffer := "" } (by simp [hpos]) (fun c hc => hk c hc) hgf
  rw [show pre ++ (k0 :: k') ++ ('=' :: v) = pre ++ (k0 :: k') ++ '=' :: v from rfl]
    at hplain
  rw [hplain]
  have heq : (pre ++ (k0 :: k') ++ '=' :: v).get? (st.pos + (k0 :: k').length) =
      some '=' := by
    have h2 : st.pos + (k0 :: k').length = (pre ++ (k0 :: k')).length := by simp [hpos]
    rw [h2]
    exact get?_at (pre ++ (k0 :: k')) '=' v
  rw [run_add (listStream (pre ++ (k0 :: k') ++ '=' :: v)) gf 1 (v.length + 2), run_one,
      step_key_eq_new (by simpa using heq) (by simpa [empty_append_mk] using hdup) hgf]
  rw [run_add (listStream (pre ++ (k0 :: k') ++ '=' :: v)) gf v.length 2]
  have hplain2 := run_plain gf .stateValue v (pre ++ (k0 :: k') ++ ['=']) []
    { st with
        pos := st.pos + (k0 :: k').length + 1
        buffer := ""
        bufferKey := "" ++ (⟨k0 :: k'⟩ : String) }
    (by simp [hpos]; omega) (fun c hc => hv c hc) hgf
  rw [show pre ++ (k0 :: k') ++ ['='] ++ v ++ [] = pre ++ (k0 :: k') ++ '=' :: v by simp]
    at hplain2
  rw [hplain2]
  have hlen : (pre ++ (k0 :: k') ++ '=' :: v).length =
      st.pos + (k0 :: k').length + 1 + v.length := by simp [hpos]; omega
  have hEOF : (pre ++ (k0 :: k') ++ '=' :: v).get?
      (st.pos + (k0 :: k').length + 1 + v.length) = none := by
    rw [← hlen]; exact get?_end _
  obtain ⟨d, hd, hdr⟩ : ∃ d, (pre ++ (k0 :: k') ++ '=' :: v).get?
      (st.pos + (k0 :: k').length + 1 + v.length - 1) = some d ∧ d ≠ '\r' := by
    rcases List.eq_nil_or_concat v with rfl | ⟨v', d, rfl⟩
    · refine ⟨'=', ?_, by decide⟩
      have h3 : st.pos + (k0 :: k').length + 1 + ([] : List Char).length - 1 =
          (pre ++ (k0 :: k')).length := by simp [hpos]
      rw [h3, show pre ++ (k0 :: k') ++ '=' :: ([] : List Char) =
          (pre ++ (k0 :: k')) ++ '=' :: [] from rfl]
      exact get?_at (pre ++ (k0 :: k')) '=' []
    · refine ⟨d, ?_, (hv d (by simp)).2⟩
      simp only [List.concat_eq_append]
      have h3 : st.pos + (k0 :: k').length + 1 + (v' ++ [d]).length - 1 =
          (pre ++ (k0 :: k') ++ '=' :: v').length := by simp [hpos]; omega
      rw [h3, show pre ++ (k0 :: k') ++ '=' :: (v' ++ [d]) =
          (pre ++ (k0 :: k') ++ '=' :: v') ++ d :: [] by simp]
      exact get?_at (pre ++ (k0 :: k') ++ '=' :: v') d []
  rw [run_add (listStream (pre ++ (k0 :: k') ++ '=' :: v)) gf 1 1, run_one, run_one,
      step_value_eof (by simpa using hEOF) (by simp; omega) (by simpa using hd) hdr hgf]
  have hEOF2 : (pre ++ (k0 :: k') ++ '=' :: v).get?
      (st.pos + (k0 :: k').length + 1 + v.length) = none := hEOF
  rw [step_mid_eof (by simpa using hEOF2)]
  exact ⟨_, rfl, by simp [empty_append_mk], by simp⟩

/-! ## Skippable chunks: whitespace and comment lines -/

theorem run_start_chunk (gf : Nat) (xs pre rest : List Char) (st : LexState)
    (hpos : st.pos = pre.length) (hsec : st.bufferSection = "")
    (hchunk : SkipChunk xs) (hgf : 1 ≤ gf) :
    run (listStream (pre ++ xs ++ rest)) gf xs.length (.stateStart, st) =
      (.stateStart, { st with pos := st.pos + xs.length, buffer := st.buffer ++ ⟨xs⟩ }) := by
  rcases hchunk with ⟨c, rfl, hc⟩ | ⟨h0, body, rfl, hh, hbody⟩
  · have hx : (pre ++ [c] ++ rest).get? st.pos = some c := by
      rw [hpos, List.append_assoc]; exact get?_at pre c rest
    rw [show ([c] : List Char).length = 1 from rfl, run_one, step_start_ws hx hc hgf]
    simp [push_mk]
  · have hx : (pre ++ (h0 :: body ++ ['\n']) ++ rest).get? st.pos = some h0 := by
      rw [hpos, List.append_assoc]
      exact get?_at pre h0 ((body ++ ['\n']) ++ rest)
    rw [show (h0 :: body ++ ['\n']).length = 1 + (body.length + 1) by simp; omega,
        run_add, run_one, step_start_comment hx hh hgf]
    rw [run_add (listStream (pre ++ (h0 :: body ++ ['\n']) ++ rest)) gf body.length 1]
    have hplain := run_plain gf .stateComment body (pre ++ [h0]) ('\n' :: rest)
      { st with pos := st.pos + 1, buffer := st.buffer.push h0 }
      (by simp [hpos]) (fun c hc => hbody c hc) hgf
    rw [show pre ++ [h0] ++ body ++ ('\n' :: rest) =
        pre ++ (h0 :: body ++ ['\n']) ++ rest by simp] at hplain
    rw [hplain]
    have hnl : (pre ++ (h0 :: body ++ ['\n']) ++ rest).get?
        (st.pos + 1 + body.length) = some '\n' := by
      have h3 : st.pos + 1 + body.length = (pre ++ [h0] ++ body).length := by
        simp [hpos]; omega
      rw [h3, show pre ++ (h0 :: body ++ ['\n']) ++ rest =
          (pre ++ [h0] ++ body) ++ '\n' :: rest by simp]
      exact get?_at (pre ++ [h0] ++ body) '\n' rest
    rw [run_one, step_comment_nl (by simpa using hnl) hgf]
    have hbuf : st.buffer.push h0 ++ (⟨body⟩ : String) ++ ("\n" : String) =
        st.buffer ++ ⟨h0 :: body ++ ['\n']⟩ := by
      rw [push_mk, append_mk_mk, show ("\n" : String) = ⟨['\n']⟩ from rfl,
          append_mk_mk]
      simp
    have hpush : (st.buffer.push h0 ++ (⟨body⟩ : String)).push '\n' =
        st.buffer.push h0 ++ (⟨body⟩ : String) ++ ("\n" : String) := by
      rw [push_mk]
    simp [hsec, hpush, hbuf]
    try omega

theorem run_mid_chunk (gf : Nat) (xs pre rest : List Char) (st : LexState)
    (hpos : st.pos = pre.length) (hsec : st.bufferSection ≠ "")
    (hchunk : SkipChunk xs) (hgf : 1 ≤ gf) :
    run (listStream (pre ++ xs ++ rest)) gf xs.length (.stateMid, st) =
      (.stateMid, { st with pos := st.pos + xs.length, buffer := st.buffer ++ ⟨xs⟩ }) := by
  rcases hchunk with ⟨c, rfl, hc⟩ | ⟨h0, body, rfl, hh, hbody⟩
  · have hx : (pre ++ [c] ++ rest).get? st.pos = some c := by
      rw [hpos, List.append_assoc]; exact get?_at pre c rest
    rw [show ([c] : List Char).length = 1 from rfl, run_one, step_mid_ws hx hc hgf]
    simp [push_mk]
  · have hx : (pre ++ (h0 :: body ++ ['\n']) ++ rest).get? st.pos = some h0 := by
      rw [hpos, List.append_assoc]
      exact get?_at pre h0 ((body ++ ['\n']) ++ rest)
    rw [show (h0 :: body ++ ['\n']).length = 1 + (body.length + 1) by simp; omega,
        run_add, run_one, step_mid_comment hx hh hgf]
    rw [run_add (listStream (pre ++ (h0 :: body ++ ['\n']) ++ rest)) gf body.length 1]
    have hplain := run_plain gf .stateComment body (pre ++ [h0]) ('\n' :: rest)
      { st with pos := st.pos + 1, buffer := st.buffer.push h0 }
      (by simp [hpos]) (fun c hc => hbody c hc) hgf
    rw [show pre ++ [h0] ++ body ++ ('\n' :: rest) =
        pre ++ (h0 :: body ++ ['\n']) ++ rest by simp] at hplain
    rw [hplain]
    have hnl : (pre ++ (h0 :: body ++ ['\n']) ++ rest).get?
        (st.pos + 1 + body.length) = some '\n' := by
      have h3 : st.pos + 1 + body.length = (pre ++ [h0] ++ body).length := by
        simp [hpos]; omega
      rw [h3, show pre ++ (h0 :: body ++ ['\n']) ++ rest =
          (pre ++ [h0] ++ body) ++ '\n' :: rest by simp]
      exact get?_at (pre ++ [h0] ++ body) '\n' rest
    rw [run_one, step_comment_nl (by simpa using hnl) hgf]
    have hbuf : st.buffer.push h0 ++ (⟨body⟩ : String) ++ ("\n" : String) =
        st.buffer ++ ⟨h0 :: body ++ ['\n']⟩ := by
      rw [push_mk, append_mk_mk, show ("\n" : String) = ⟨['\n']⟩ from rfl,
          append_mk_mk]
      simp
    have hpush : (st.buffer.push h0 ++ (⟨body⟩ : String)).push '\n' =
        st.buffer.push h0 ++ (⟨body⟩ : String) ++ ("\n" : String) := by
      rw [push_mk]
    simp [hsec, hpush, hbuf]
    try omega

theorem run_mid_chunks (gf : Nat) (chs : List (List Char)) :
    ∀ (pre rest : List Char) (st : LexState), st.pos = pre.length →
      st.bufferSection ≠ "" → (∀ x ∈ chs, SkipChunk x) → 1 ≤ gf →
      run (listStream (pre ++ chs.join ++ rest)) gf chs.join.length (.stateMid, st) =
        (.stateMid, { st with
                        pos := st.pos + chs.join.length
                        buffer := st.buffer ++ ⟨chs.join⟩ }) := by
  induction chs with
  | nil =>
    intro pre rest st hpos hsec hchs hgf
    simp [run_zero, append_empty_str]
  | cons x chs ih =>
    intro pre rest st hpos hsec hchs hgf
    rw [show (x :: chs).join = x ++ chs.join from rfl, List.length_append, run_add]
    have h1 := run_mid_chunk gf x pre (chs.join ++ rest) st hpos hsec
      (hchs x (by simp)) hgf
    rw [show pre ++ x ++ (chs.join ++ rest) = pre ++ (x ++ chs.join) ++ rest by simp]
      at h1
    rw [h1]
    have h2 := ih (pre ++ x) rest
      { st with pos := st.pos + x.length, buffer := st.buffer ++ ⟨x⟩ }
      (by simp [hpos]) hsec (fun y hy => hchs y (by simp [hy])) hgf
    rw [show pre ++ x ++ chs.join ++ rest = pre ++ (x ++ chs.join) ++ rest by simp]
      at h2
    rw [h2]
    have hbuf : st.buffer ++ (⟨x⟩ : String) ++ (⟨chs.join⟩ : String) =
        st.buffer ++ ⟨x ++ chs.join⟩ := append_mk_mk _ _ _
    simp [hbuf, Nat.add_assoc]
    try omega

theorem run_start_chunks (gf : Nat) (chs : List (List Char)) :
    ∀ (pre rest : List Char) (st : LexState), st.pos = pre.length →
      st.bufferSection = "" → (∀ x ∈ chs, SkipChunk x) → 1 ≤ gf →
      run (listStream (pre ++ chs.join ++ rest)) gf chs.join.length (.stateStart, st) =
        (.stateStart, { st with
                          pos := st.pos + chs.join.length
                          buffer := st.buffer ++ ⟨chs.join⟩ }) := by
  induction chs with
  | nil =>
    intro pre rest st hpos hsec hchs hgf
    simp [run_zero, append_empty_str]
  | cons x chs ih =>
    intro pre rest st hpos hsec hchs hgf
    rw [show (x :: chs).join = x ++ chs.join from rfl, List.length_append, run_add]
    have h1 := run_start_chunk gf x pre (chs.join ++ rest) st hpos hsec
      (hchs x (by simp)) hgf
    rw [show pre ++ x ++ (chs.join ++ rest) = pre ++ (x ++ chs.join) ++ rest by simp]
      at h1
    rw [h1]
    have h2 := ih (pre ++ x) rest
      { st with pos := st.pos + x.length, buffer := st.buffer ++ ⟨x⟩ }
      (by simp [hpos]) hsec (fun y hy => hchs y (by simp [hy])) hgf
    rw [show pre ++ x ++ chs.join ++ rest = pre ++ (x ++ chs.join) ++ rest by simp]
      at h2
    rw [h2]
    have hbuf : st.buffer ++ (⟨x⟩ : String) ++ (⟨chs.join⟩ : String) =
        st.buffer ++ ⟨x ++ chs.join⟩ := append_mk_mk _ _ _
    simp [hbuf, Nat.add_assoc]
    try omega

/-! ## Complete parses of parameterised single-section documents -/

theorem opens_single_kv_nl (s k v : List Char)
    (hs : sectionNameOK s) (hk : keyCharsOK k) (hk0 : keyStartOK k) (hkne : k ≠ [])
    (hv : valueCharsOK v) :
    Opens ('[' :: s ++ ']' :: '\n' :: k ++ '=' :: v ++ ['\n'])
      (some ⟨[(⟨s⟩, [(⟨k⟩, ⟨v⟩)])]⟩, none) := by
  set l : List Char := '[' :: s ++ ']' :: '\n' :: k ++ '=' :: v ++ ['\n'] with hl
  have hgf : 1 ≤ l.length + 2 := by omega
  have hA : run (listStream l) (l.length + 2) (s.length + 2)
      (.stateStart, ⟨0, "", "", "", "", "", []⟩) =
      (.stateMid, ⟨s.length + 2, ⟨s⟩, "", "", "", "]", [(⟨s⟩, [])]⟩) := by
    have h := run_open_section (l.length + 2) s []
      ('\n' :: k ++ '=' :: v ++ ['\n']) ⟨0, "", "", "", "", "", []⟩ rfl hs rfl hgf
    rw [show ([] : List Char) ++ ('[' :: s ++ [']']) ++ ('\n' :: k ++ '=' :: v ++ ['\n'])
        = l by simp [hl]] at h
    simpa [set1] using h
  have hx1 : l.get? (s.length + 2) = some '\n' := by
    have h := get?_at ('[' :: s ++ [']']) '\n' (k ++ '=' :: v ++ ['\n'])
    rw [show ('[' :: s ++ [']'] : List Char).length = s.length + 2 by simp; try omega] at h
    rw [show ('[' :: s ++ [']']) ++ '\n' :: (k ++ '=' :: v ++ ['\n']) = l
        by simp [hl]] at h
    exact h
  have hB : step (listStream l) (l.length + 2)
      (.stateMid, ⟨s.length + 2, ⟨s⟩, "", "", "", "]", [(⟨s⟩, [])]⟩) =
      (.stateMid, ⟨s.length + 3, ⟨s⟩, "", "", "", "]\n", [(⟨s⟩, [])]⟩) := by
    simpa using step_mid_ws hx1 (Or.inr (Or.inr rfl)) hgf
  have hC : run (listStream l) (l.length + 2) (k.length + v.length + 3)
      (.stateMid, ⟨s.length + 3, ⟨s⟩, "", "", "", "]\n", [(⟨s⟩, [])]⟩) =
      (.stateMid, ⟨s.length + 3 + (k.length + v.length + 2), ⟨s⟩, ⟨k⟩, ⟨v⟩, "", "\n",
        [(⟨s⟩, [(⟨k⟩, ⟨v⟩)])]⟩) := by
    have h := run_kv_line (l.length + 2) k v ('[' :: s ++ ']' :: '\n' :: []) []
      ⟨s.length + 3, ⟨s⟩, "", "", "", "]\n", [(⟨s⟩, [])]⟩
      (by simp; try omega) hk hk0 hkne hv (by simp [find2, find1]) hgf
    rw [show ('[' :: s ++ ']' :: '\n' :: []) ++ (k ++ '=' :: v ++ ['\n']) ++ [] = l
        by simp [hl]] at h
    simpa [set2, set1, find1] using h
  have hx2 : l.get? (s.length + 3 + (k.length + v.length + 2)) = none := by
    have h := get?_end l
    rw [show l.length = s.length + 3 + (k.length + v.length + 2) by simp [hl]; omega] at h
    exact h
  have hD : step (listStream l) (l.length + 2)
      (.stateMid, ⟨s.length + 3 + (k.length + v.length + 2), ⟨s⟩, ⟨k⟩, ⟨v⟩, "", "\n",
        [(⟨s⟩, [(⟨k⟩, ⟨v⟩)])]⟩) =
      (.stateEOF, ⟨s.length + 3 + (k.length + v.length + 2) - 1, ⟨s⟩, ⟨k⟩, ⟨v⟩, "", "\n",
        [(⟨s⟩, [(⟨k⟩, ⟨v⟩)])]⟩) := by
    simpa using step_mid_eof hx2
  refine ⟨(s.length + 2) + (1 + ((k.length + v.length + 3) + 1)), ?_⟩
  rw [show initState = (⟨0, "", "", "", "", "", []⟩ : LexState) from rfl,
      run_add, hA, run_add, run_one, hB, run_add, hC, run_one, hD]
  rfl

theorem opens_single_kv_eof (s k v : List Char)
    (hs : sectionNameOK s) (hk : keyCharsOK k) (hk0 : keyStartOK k) (hkne : k ≠ [])
    (hv : valueCharsOK v) :
    Opens ('[' :: s ++ ']' :: '\n' :: k ++ '=' :: v)
      (some ⟨[(⟨s⟩, [(⟨k⟩, ⟨v⟩)])]⟩, none) := by
  set l : List Char := '[' :: s ++ ']' :: '\n' :: k ++ '=' :: v with hl
  have hgf : 1 ≤ l.length + 2 := by omega
  have hA : run (listStream l) (l.length + 2) (s.length + 2)
      (.stateStart, ⟨0, "", "", "", "", "", []⟩) =
      (.stateMid, ⟨s.length + 2, ⟨s⟩, "", "", "", "]", [(⟨s⟩, [])]⟩) := by
    have h := run_open_section (l.length + 2) s []
      ('\n' :: k ++ '=' :: v) ⟨0, "", "", "", "", "", []⟩ rfl hs rfl hgf
    rw [show ([] : List Char) ++ ('[' :: s ++ [']']) ++ ('\n' :: k ++ '=' :: v)
        = l by simp [hl]] at h
    simpa [set1] using h
  have hx1 : l.get? (s.length + 2) = some '\n' := by
    have h := get?_at ('[' :: s ++ [']']) '\n' (k ++ '=' :: v)
    rw [show ('[' :: s ++ [']'] : List Char).length = s.length + 2 by simp; try omega] at h
    rw [show ('[' :: s ++ [']']) ++ '\n' :: (k ++ '=' :: v) = l by simp [hl]] at h
    exact h
  have hB : step (listStream l) (l.length + 2)
      (.stateMid, ⟨s.length + 2, ⟨s⟩, "", "", "", "]", [(⟨s⟩, [])]⟩) =
      (.stateMid, ⟨s.length + 3, ⟨s⟩, "", "", "", "]\n", [(⟨s⟩, [])]⟩) := by
    simpa using step_mid_ws hx1 (Or.inr (Or.inr rfl)) hgf
  have hE := run_kv_eof (l.length + 2) k v ('[' :: s ++ ']' :: '\n' :: [])
    ⟨s.length + 3, ⟨s⟩, "", "", "", "]\n", [(⟨s⟩, [])]⟩
    (by simp; try omega) hk hk0 hkne hv (by simp [find2, find1]) hgf
  rw [show ('[' :: s ++ ']' :: '\n' :: []) ++ k ++ '=' :: v = l by simp [hl]] at hE
  obtain ⟨st', hrun, hdata, hsec'⟩ := hE
  refine ⟨(s.length + 2) + (1 + (k.length + v.length + 4)), ?_⟩
  rw [show initState = (⟨0, "", "", "", "", "", []⟩ : LexState) from rfl,
      run_add, hA, run_add, run_one, hB, hrun]
  have hdata' : st'.data = [(⟨s⟩, [(⟨k⟩, ⟨v⟩)])] := by
    rw [hdata]; simp [set2, set1, find1]
  simp [extract, hdata']

theorem opens_single_kv_chunks (s k v : List Char) (chs : List (List Char))
    (hsne : s ≠ []) (hs : sectionNameOK s) (hchs : ∀ x ∈ chs, SkipChunk x)
    (hk : keyCharsOK k) (hk0 : keyStartOK k) (hkne : k ≠ [])
    (hv : valueCharsOK v) :
    Opens ('[' :: s ++ ']' :: '\n' :: chs.join ++ k ++ '=' :: v ++ ['\n'])
      (some ⟨[(⟨s⟩, [(⟨k⟩, ⟨v⟩)])]⟩, none) := by
  set l : List Char := '[' :: s ++ ']' :: '\n' :: chs.join ++ k ++ '=' :: v ++ ['\n']
    with hl
  have hgf : 1 ≤ l.length + 2 := by omega
  have hsne' : (⟨s⟩ : String) ≠ "" := by
    intro hc
    exact hsne (by simpa using congrArg String.data hc)
  have hA : run (listStream l) (l.length + 2) (s.length + 2)
      (.stateStart, ⟨0, "", "", "", "", "", []⟩) =
      (.stateMid, ⟨s.length + 2, ⟨s⟩, "", "", "", "]", [(⟨s⟩, [])]⟩) := by
    have h := run_open_section (l.length + 2) s []
      ('\n' :: chs.join ++ k ++ '=' :: v ++ ['\n']) ⟨0, "", "", "", "", "", []⟩
      rfl hs rfl hgf
    rw [show ([] : List Char) ++ ('[' :: s ++ [']']) ++
        ('\n' :: chs.join ++ k ++ '=' :: v ++ ['\n']) = l by simp [hl]] at h
    simpa [set1] using h
  have hx1 : l.get? (s.length + 2) = some '\n' := by
    have h := get?_at ('[' :: s ++ [']']) '\n' (chs.join ++ k ++ '=' :: v ++ ['\n'])
    rw [show ('[' :: s ++ [']'] : List Char).length = s.length + 2 by simp; try omega] at h
    rw [show ('[' :: s ++ [']']) ++ '\n' :: (chs.join ++ k ++ '=' :: v ++ ['\n']) = l
        by simp [hl]] at h
    exact h
  have hB : step (listStream l) (l.length + 2)
      (.stateMid, ⟨s.length + 2, ⟨s⟩, "", "", "", "]", [(⟨s⟩, [])]⟩) =
      (.stateMid, ⟨s.length + 3, ⟨s⟩, "", "", "", "]\n", [(⟨s⟩, [])]⟩) := by
    simpa using step_mid_ws hx1 (Or.inr (Or.inr rfl)) hgf
  have hCh : run (listStream l) (l.length + 2) chs.join.length
      (.stateMid, ⟨s.length + 3, ⟨s⟩, "", "", "", "]\n", [(⟨s⟩, [])]⟩) =
      (.stateMid, ⟨s.length + 3 + chs.join.length, ⟨s⟩, "", "", "",
        "]\n" ++ ⟨chs.join⟩, [(⟨s⟩, [])]⟩) := by
    have h := run_mid_chunks (l.length + 2) chs ('[' :: s ++ ']' :: '\n' :: [])
      (k ++ '=' :: v ++ ['\n'])
      ⟨s.length + 3, ⟨s⟩, "", "", "", "]\n", [(⟨s⟩, [])]⟩
      (by simp; try omega) hsne' hchs hgf
    rw [show ('[' :: s ++ ']' :: '\n' :: []) ++ chs.join ++ (k ++ '=' :: v ++ ['\n']) = l
        by simp [hl]] at h
    simpa using h
  have hC : run (listStream l) (l.length + 2) (k.length + v.length + 3)
      (.stateMid, ⟨s.length + 3 + chs.join.length, ⟨s⟩, "", "", "",
        "]\n" ++ ⟨chs.join⟩, [(⟨s⟩, [])]⟩) =
      (.stateMid, ⟨s.length + 3 + chs.join.length + (k.length + v.length + 2),
        ⟨s⟩, ⟨k⟩, ⟨v⟩, "", "\n", [(⟨s⟩, [(⟨k⟩, ⟨v⟩)])]⟩) := by
    have h := run_kv_line (l.length + 2) k v
      (('[' :: s ++ ']' :: '\n' :: []) ++ chs.join) []
      ⟨s.length + 3 + chs.join.length, ⟨s⟩, "", "", "",
        "]\n" ++ ⟨chs.join⟩, [(⟨s⟩, [])]⟩
      (by simp; try omega) hk hk0 hkne hv (by simp [find2, find1]) hgf
    rw [show (('[' :: s ++ ']' :: '\n' :: []) ++ chs.join) ++ (k ++ '=' :: v ++ ['\n'])
        ++ [] = l by simp [hl]] at h
    simpa [set2, set1, find1] using h
  have hx2 : l.get? (s.length + 3 + chs.join.length + (k.length + v.length + 2)) =
      none := by
    have h := get?_end l
    rw [show l.length = s.length + 3 + chs.join.length + (k.length + v.length + 2)
        by simp [hl]; omega] at h
    exact h
  have hD : step (listStream l) (l.length + 2)
      (.stateMid, ⟨s.length + 3 + chs.join.length + (k.length + v.length + 2),
        ⟨s⟩, ⟨k⟩, ⟨v⟩, "", "\n", [(⟨s⟩, [(⟨k⟩, ⟨v⟩)])]⟩) =
      (.stateEOF, ⟨s.length + 3 + chs.join.length + (k.length + v.length + 2) - 1,
        ⟨s⟩, ⟨k⟩, ⟨v⟩, "", "\n", [(⟨s⟩, [(⟨k⟩, ⟨v⟩)])]⟩) := by
    exact step_mid_eof hx2
  refine ⟨(s.length + 2) + (1 + (chs.join.length + ((k.length + v.length + 3) + 1))), ?_⟩
  rw [show initState = (⟨0, "", "", "", "", "", []⟩ : LexState) from rfl,
      run_add, hA, run_add, run_one, hB, run_add, hCh, run_add, hC, run_one, hD]
  rfl

/-! ## Claim theorems -/

/-- C1: for every Document produced by a successful parse and every section
name and key name, `Conf.Read` returns exactly the stored string (no
trimming, no coercion) when both the section and the key exist, and the
not-found error when either is absent. -/
theorem C1_read_exact_or_not_found (l : List Char) (conf : Conf)
    (hp : Opens l (some conf, none)) (sec key : String) :
    (∀ v, find2 conf.data sec key = some v → conf.Read sec key = (v, none)) ∧
    (find2 conf.data sec key = none →
      conf.Read sec key = ("", some "key or section does not exist")) := by
  constructor
  · intro v hv
    simp [Conf.Read, hv]
  · intro hv
    simp [Conf.Read, hv]

theorem C1_witness :
    Opens ("[a]\nx=1\n".data) (some ⟨[("a", [("x", "1")])]⟩, none) ∧
    (⟨[("a", [("x", "1")])]⟩ : Conf).Read "a" "x" = ("1", none) ∧
    (⟨[("a", [("x", "1")])]⟩ : Conf).Read "a" "y" =
      ("", some "key or section does not exist") := by
  have hp : Opens ("[a]\nx=1\n".data) (some ⟨[("a", [("x", "1")])]⟩, none) :=
    ⟨20, by decide⟩
  exact ⟨hp,
    (C1_read_exact_or_not_found _ _ hp "a" "x").1 "1" (by decide),
    (C1_read_exact_or_not_found _ _ hp "a" "y").2 (by decide)⟩

/-- C2: whenever the parse terminates with an error (the second component
of the Go return pair), the first component is `nil`: no Document, partial
or otherwise, is ever returned on an error path. -/
theorem C2_no_partial_document_on_error (s : Nat → ReadRes) (gf : Nat)
    (c? : Option Conf) (e : String) (h : OpensS s gf (c?, some e)) : c? = none := by
  obtain ⟨f, hf⟩ := h
  rcases hEq : run s gf f (.stateStart, initState) with ⟨tag, st⟩
  rw [hEq] at hf
  cases tag <;> simp [extract] at hf
  exact hf.1.symm

theorem C2_witness :
    OpensS (listStream ("x=1\n".data)) ("x=1\n".data.length + 2)
      ((none : Option Conf), some "key not in section: x") ∧
    (none : Option Conf) = none := by
  have h : OpensS (listStream ("x=1\n".data)) ("x=1\n".data.length + 2)
      ((none : Option Conf), some "key not in section: x") := ⟨5, by decide⟩
  exact ⟨h, C2_no_partial_document_on_error _ _ none "key not in section: x" h⟩

/-- C3: an input that opens with any number of whitespace characters and
full-line comments and then a character that begins a key/value pair (not
`[`, `#`, `;`, whitespace, or a carriage return) before any section header
fails with the "key not in section" error carrying the buffered token, and
no Document is returned. -/
theorem C3_key_before_section (chs : List (List Char)) (c : Char) (rest : List Char)
    (hchs : ∀ x ∈ chs, SkipChunk x)
    (hc : c ≠ ' ' ∧ c ≠ '\t' ∧ c ≠ '\n' ∧ c ≠ '[' ∧ c ≠ '#' ∧ c ≠ ';' ∧ c ≠ '\r') :
    Opens (chs.join ++ c :: rest)
      (none, some ("key not in section: " ++ ⟨chs.join ++ [c]⟩)) := by
  set l : List Char := chs.join ++ c :: rest with hl
  have hgf : 1 ≤ l.length + 2 := by omega
  have hA : run (listStream l) (l.length + 2) chs.join.length
      (.stateStart, ⟨0, "", "", "", "", "", []⟩) =
      (.stateStart, ⟨chs.join.length, "", "", "", "", ⟨chs.join⟩, []⟩) := by
    have h := run_start_chunks (l.length + 2) chs [] (c :: rest)
      ⟨0, "", "", "", "", "", []⟩ rfl rfl hchs hgf
    rw [show ([] : List Char) ++ chs.join ++ (c :: rest) = l by simp [hl]] at h
    simpa using h
  have hx : l.get? chs.join.length = some c := get?_at chs.join c rest
  have hB : step (listStream l) (l.length + 2)
      (.stateStart, ⟨chs.join.length, "", "", "", "", ⟨chs.join⟩, []⟩) =
      (.stateError, ⟨chs.join.length + 1, "", "", "",
        "key not in section: " ++ ⟨chs.join ++ [c]⟩, ⟨chs.join ++ [c]⟩, []⟩) := by
    exact step_start_err hx hc hgf
  refine ⟨chs.join.length + 1, ?_⟩
  rw [show initState = (⟨0, "", "", "", "", "", []⟩ : LexState) from rfl,
      run_add, hA, run_one, hB]
  rfl

theorem C3_witness :
    Opens ("#c\nx=1\n".data)
      (none, some ("key not in section: " ++ ("#c\nx" : String))) := by
  have h := C3_key_before_section [['#', 'c', '\n']] 'x' ['=', '1', '\n']
    (by
      intro x hx
      simp only [List.mem_singleton] at hx
      subst hx
      exact Or.inr ⟨'#', ['c'], rfl, Or.inl rfl, by decide⟩)
    (by decide)
  exact h

/-- C4: when the same key name reaches its `=` twice within one section,
the parse fails with "duplicate key in section" naming that key, and no
Document is returned (whatever follows the second `=` is never read). -/
theorem C4_duplicate_key (s k v rest : List Char)
    (hs : sectionNameOK s) (hk : keyCharsOK k) (hk0 : keyStartOK k) (hkne : k ≠ [])
    (hv : valueCharsOK v) :
    Opens ('[' :: s ++ ']' :: '\n' :: k ++ '=' :: v ++ '\n' :: k ++ '=' :: rest)
      (none, some ("duplicate key in section: " ++ ⟨k⟩)) := by
  obtain ⟨k0, k', rfl⟩ : ∃ k0 k', k = k0 :: k' := by
    cases k with
    | nil => exact absurd rfl hkne
    | cons a b => exact ⟨a, b, rfl⟩
  set k : List Char := k0 :: k' with hk2
  set l : List Char := '[' :: s ++ ']' :: '\n' :: k ++ '=' :: v ++ '\n' :: k ++ '=' :: rest
    with hl
  have hgf : 1 ≤ l.length + 2 := by omega
  have hA : run (listStream l) (l.length + 2) (s.length + 2)
      (.stateStart, ⟨0, "", "", "", "", "", []⟩) =
      (.stateMid, ⟨s.length + 2, ⟨s⟩, "", "", "", "]", [(⟨s⟩, [])]⟩) := by
    have h := run_open_section (l.length + 2) s []
      ('\n' :: k ++ '=' :: v ++ '\n' :: k ++ '=' :: rest) ⟨0, "", "", "", "", "", []⟩
      rfl hs rfl hgf
    rw [show ([] : List Char) ++ ('[' :: s ++ [']']) ++
        ('\n' :: k ++ '=' :: v ++ '\n' :: k ++ '=' :: rest) = l by simp [hl]] at h
    simpa [set1] using h
  have hx1 : l.get? (s.length + 2) = some '\n' := by
    have h := get?_at ('[' :: s ++ [']']) '\n' (k ++ '=' :: v ++ '\n' :: k ++ '=' :: rest)
    rw [show ('[' :: s ++ [']'] : List Char).length = s.length + 2 by simp; try omega] at h
    rw [show ('[' :: s ++ [']']) ++ '\n' :: (k ++ '=' :: v ++ '\n' :: k ++ '=' :: rest) = l
        by simp [hl]] at h
    exact h
  have hB : step (listStream l) (l.length + 2)
      (.stateMid, ⟨s.length + 2, ⟨s⟩, "", "", "", "]", [(⟨s⟩, [])]⟩) =
      (.stateMid, ⟨s.length + 3, ⟨s⟩, "", "", "", "]\n", [(⟨s⟩, [])]⟩) := by
    simpa using step_mid_ws hx1 (Or.inr (Or.inr rfl)) hgf
  have hC : run (listStream l) (l.length + 2) (k.length + v.length + 3)
      (.stateMid, ⟨s.length + 3, ⟨s⟩, "", "", "", "]\n", [(⟨s⟩, [])]⟩) =
      (.stateMid, ⟨s.length + 3 + (k.length + v.length + 2), ⟨s⟩, ⟨k⟩, ⟨v⟩, "", "\n",
        [(⟨s⟩, [(⟨k⟩, ⟨v⟩)])]⟩) := by
    have h := run_kv_line (l.length + 2) k v ('[' :: s ++ ']' :: '\n' :: [])
      (k ++ '=' :: rest) ⟨s.length + 3, ⟨s⟩, "", "", "", "]\n", [(⟨s⟩, [])]⟩
      (by simp; try omega) hk hk0 hkne hv (by simp [find2, find1]) hgf
    rw [show ('[' :: s ++ ']' :: '\n' :: []) ++ (k ++ '=' :: v ++ ['\n']) ++
        (k ++ '=' :: rest) = l by simp [hl]] at h
    simpa [set2, set1, find1] using h
  have hx2 : l.get? (s.length + 3 + (k.length + v.length + 2)) = some k0 := by
    have h := get?_at (('[' :: s ++ ']' :: '\n' :: []) ++ (k ++ '=' :: v ++ ['\n'])) k0
      (k' ++ '=' :: rest)
    rw [show ((('[' :: s ++ ']' :: '\n' :: []) ++ (k ++ '=' :: v ++ ['\n'])) :
        List Char).length = s.length + 3 + (k.length + v.length + 2)
        by simp [hk2]; try omega] at h
    rw [show (('[' :: s ++ ']' :: '\n' :: []) ++ (k ++ '=' :: v ++ ['\n'])) ++
        k0 :: (k' ++ '=' :: rest) = l by simp [hl, hk2]] at h
    exact h
  have hD : step (listStream l) (l.length + 2)
      (.stateMid, ⟨s.length + 3 + (k.length + v.length + 2), ⟨s⟩, ⟨k⟩, ⟨v⟩, "", "\n",
        [(⟨s⟩, [(⟨k⟩, ⟨v⟩)])]⟩) =
      (.stateKey, ⟨s.length + 3 + (k.length + v.length + 2), ⟨s⟩, ⟨k⟩, ⟨v⟩, "", "",
        [(⟨s⟩, [(⟨k⟩, ⟨v⟩)])]⟩) := by
    exact step_mid_key hx2 (hk0 k0 (by simp [hk2])) hgf
  have hE : run (listStream l) (l.length + 2) k.length
      (.stateKey, ⟨s.length + 3 + (k.length + v.length + 2), ⟨s⟩, ⟨k⟩, ⟨v⟩, "", "",
        [(⟨s⟩, [(⟨k⟩, ⟨v⟩)])]⟩) =
      (.stateKey, ⟨s.length + 3 + (k.length + v.length + 2) + k.length,
        ⟨s⟩, ⟨k⟩, ⟨v⟩, "", "" ++ (⟨k⟩ : String), [(⟨s⟩, [(⟨k⟩, ⟨v⟩)])]⟩) := by
    have h := run_plain (l.length + 2) .stateKey k
      (('[' :: s ++ ']' :: '\n' :: []) ++ (k ++ '=' :: v ++ ['\n'])) ('=' :: rest)
      ⟨s.length + 3 + (k.length + v.length + 2), ⟨s⟩, ⟨k⟩, ⟨v⟩, "", "",
        [(⟨s⟩, [(⟨k⟩, ⟨v⟩)])]⟩
      (by simp [hk2]; try omega) (fun c hc => hk c hc) hgf
    rw [show (('[' :: s ++ ']' :: '\n' :: []) ++ (k ++ '=' :: v ++ ['\n'])) ++ k ++
        ('=' :: rest) = l by simp [hl, hk2]] at h
    exact h
  have hx3 : l.get? (s.length + 3 + (k.length + v.length + 2) + k.length) = some '=' := by
    have h := get?_at ((('[' :: s ++ ']' :: '\n' :: []) ++ (k ++ '=' :: v ++ ['\n'])) ++ k)
      '=' rest
    rw [show (((('[' :: s ++ ']' :: '\n' :: []) ++ (k ++ '=' :: v ++ ['\n'])) ++ k) :
        List Char).length = s.length + 3 + (k.length + v.length + 2) + k.length
        by simp [hk2]; try omega] at h
    rw [show ((('[' :: s ++ ']' :: '\n' :: []) ++ (k ++ '=' :: v ++ ['\n'])) ++ k) ++
        '=' :: rest = l by simp [hl, hk2]] at h
    exact h
  have hF : step (listStream l) (l.length + 2)
      (.stateKey, ⟨s.length + 3 + (k.length + v.length + 2) + k.length,
        ⟨s⟩, ⟨k⟩, ⟨v⟩, "", "" ++ (⟨k⟩ : String), [(⟨s⟩, [(⟨k⟩, ⟨v⟩)])]⟩) =
      (.stateError, ⟨s.length + 3 + (k.length + v.length + 2) + k.length,
        ⟨s⟩, "" ++ (⟨k⟩ : String), ⟨v⟩,
        "duplicate key in section: " ++ ("" ++ (⟨k⟩ : String)), "",
        [(⟨s⟩, [(⟨k⟩, ⟨v⟩)])]⟩) := by
    exact step_key_eq_dup (v := ⟨v⟩) hx3 (by simp [find2, find1, empty_append_mk]) hgf
  refine ⟨(s.length + 2) + (1 + ((k.length + v.length + 3) + (1 + (k.length + 1)))), ?_⟩
  rw [show initState = (⟨0, "", "", "", "", "", []⟩ : LexState) from rfl,
      run_add, hA, run_add, run_one, hB, run_add, hC, run_add, run_one, hD,
      run_add, hE, run_one, hF]
  rfl

theorem C4_witness :
    Opens ("[a]\nx=1\nx=2\n".data)
      (none, some ("duplicate key in section: " ++ ("x" : String))) := by
  have h := C4_duplicate_key ['a'] ['x'] ['1'] ['2', '\n']
    (by decide) (by decide) (by decide) (by decide) (by decide)
  exact h

/-- C5: in the VALUE state a value token is terminated by a newline or by
end of stream: the same single-section document parses to the same stored
value with or without a trailing newline on its final key=value line; in
particular, with no trailing newline the last value is still flushed and
stored before the parse terminates successfully. -/
theorem C5_value_flushed_at_eof (s k v : List Char)
    (hs : sectionNameOK s) (hk : keyCharsOK k) (hk0 : keyStartOK k) (hkne : k ≠ [])
    (hv : valueCharsOK v) :
    Opens ('[' :: s ++ ']' :: '\n' :: k ++ '=' :: v ++ ['\n'])
      (some ⟨[(⟨s⟩, [(⟨k⟩, ⟨v⟩)])]⟩, none) ∧
    Opens ('[' :: s ++ ']' :: '\n' :: k ++ '=' :: v)
      (some ⟨[(⟨s⟩, [(⟨k⟩, ⟨v⟩)])]⟩, none) :=
  ⟨opens_single_kv_nl s k v hs hk hk0 hkne hv,
   opens_single_kv_eof s k v hs hk hk0 hkne hv⟩

theorem C5_witness :
    Opens ("[a]\nx=1\n".data) (some ⟨[("a", [("x", "1")])]⟩, none) ∧
    Opens ("[a]\nx=1".data) (some ⟨[("a", [("x", "1")])]⟩, none) := by
  have h := C5_value_flushed_at_eof ['a'] ['x'] ['1']
    (by decide) (by decide) (by decide) (by decide) (by decide)
  exact h

/-- C6 counterexample: in the stream `\r\r\n` the first carriage return is
not immediately followed by a line feed, yet `get` does not deliver it as a
literal character: the whole three-byte sequence is consumed in one `get`
call that returns a single newline. -/
theorem C6_counterexample :
    ['\r', '\r', '\n'].get? 0 = some '\r' ∧
    ['\r', '\r', '\n'].get? 1 = some '\r' ∧ ('\r' : Char) ≠ '\n' ∧
    get (listStream ['\r', '\r', '\n']) (['\r', '\r', '\n'].length + 2) 0 ≠
      (some '\r', 1) ∧
    get (listStream ['\r', '\r', '\n']) (['\r', '\r', '\n'].length + 2) 0 =
      (some '\n', 3) := by decide

/-- C6 amended: a carriage return immediately followed by a line feed is
consumed as a single newline; a carriage return whose immediate successor
is neither a carriage return nor a line feed is delivered literally; but a
run of carriage returns ending in a line feed collapses to one newline
(see the counterexample), so literal delivery cannot be promised when the
next character is another carriage return. -/
theorem C6_crlf_normalization (l : List Char) (p : Nat) (gf : Nat) (hgf : 2 ≤ gf) :
    (l.get? p = some '\r' → l.get? (p + 1) = some '\n' →
      get (listStream l) gf p = (some '\n', p + 2)) ∧
    (∀ c, l.get? p = some '\r' → l.get? (p + 1) = some c → c ≠ '\r' → c ≠ '\n' →
      get (listStream l) gf p = (some '\r', p + 1)) := by
  obtain ⟨f, rfl⟩ : ∃ f, gf = f + 1 := ⟨gf - 1, by omega⟩
  have hf : 1 ≤ f := by omega
  constructor
  · intro h1 h2
    have h1' : l[p]? = some '\r' := by
      rw [← List.get?_eq_getElem?]; exact h1
    have hr : get (listStream l) f (p + 1) = (some '\n', p + 1 + 1) :=
      getL_ok h2 (by decide) hf
    simp [get, readChr_list, h1', hr]
  · intro c h1 h2 hcr hcn
    have h1' : l[p]? = some '\r' := by
      rw [← List.get?_eq_getElem?]; exact h1
    have hr : get (listStream l) f (p + 1) = (some c, p + 1 + 1) :=
      getL_ok h2 hcr hf
    simp [get, readChr_list, h1', hr, hcn]

theorem C6_witness :
    get (listStream ['\r', '\n', 'a']) 5 0 = (some '\n', 2) ∧
    get (listStream ['\r', 'a']) 5 0 = (some '\r', 1) :=
  ⟨(C6_crlf_normalization ['\r', '\n', 'a'] 0 5 (by decide)).1 (by decide) (by decide),
   (C6_crlf_normalization ['\r', 'a'] 0 5 (by decide)).2 'a' (by decide) (by decide)
     (by decide) (by decide)⟩

/-- C7 counterexample: inserting the full-line comment `#c` between the
`[]` section header and the key/value line `x=1` flips a successful parse
(Document `{"" ↦ {"x" ↦ "1"}}`) into a "key not in section" failure,
because the COMMENT state routes back to START when the open section's
name is the empty string. -/
theorem C7_counterexample :
    Opens ("[]\nx=1\n".data) (some ⟨[("", [("x", "1")])]⟩, none) ∧
    Opens ("[]\n#c\nx=1\n".data) (none, some "key not in section: ]\n#c\nx") :=
  ⟨⟨20, by decide⟩, ⟨20, by decide⟩⟩

/-- C7 amended: for a section whose name is nonempty, inserting any number
of whitespace characters and full-line comments between the section header
line and a key/value line leaves the parse outcome and the resulting
Document unchanged; with an empty-named section `[]` a comment line re-routes
the machine to START and a following key/value line fails instead
(see the counterexample). -/
theorem C7_skippable_lines_invariance (s k v : List Char) (chs : List (List Char))
    (hsne : s ≠ []) (hs : sectionNameOK s) (hchs : ∀ x ∈ chs, SkipChunk x)
    (hk : keyCharsOK k) (hk0 : keyStartOK k) (hkne : k ≠ []) (hv : valueCharsOK v) :
    Opens ('[' :: s ++ ']' :: '\n' :: k ++ '=' :: v ++ ['\n'])
      (some ⟨[(⟨s⟩, [(⟨k⟩, ⟨v⟩)])]⟩, none) ∧
    Opens ('[' :: s ++ ']' :: '\n' :: chs.join ++ k ++ '=' :: v ++ ['\n'])
      (some ⟨[(⟨s⟩, [(⟨k⟩, ⟨v⟩)])]⟩, none) :=
  ⟨opens_single_kv_nl s k v hs hk hk0 hkne hv,
   opens_single_kv_chunks s k v chs hsne hs hchs hk hk0 hkne hv⟩

theorem C7_witness :
    Opens ("[a]\nx=1\n".data) (some ⟨[("a", [("x", "1")])]⟩, none) ∧
    Opens ("[a]\n;c\n\t\nx=1\n".data) (some ⟨[("a", [("x", "1")])]⟩, none) := by
  have h := C7_skippable_lines_invariance ['a'] ['x'] ['1'] [[';', 'c', '\n'], ['\t'], ['\n']]
    (by decide) (by decide)
    (by
      intro x hx
      simp only [List.mem_cons, List.mem_singleton] at hx
      rcases hx with rfl | rfl | rfl | hx
      · exact Or.inr ⟨';', ['c'], rfl, Or.inr rfl, by decide⟩
      · exact Or.inl ⟨'\t', rfl, Or.inr (Or.inl rfl)⟩
      · exact Or.inl ⟨'\n', rfl, Or.inr (Or.inr rfl)⟩
      · exact absurd hx (List.not_mem_nil x))
    (by decide) (by decide) (by decide) (by decide)
  exact h

/-- C8 counterexample: a stream whose every read fails with an I/O error
parses "successfully" to the empty Document — the parse neither aborts nor
propagates the error, because `lexer.get` turns any read failure into "",
which the state machine takes as end of stream. -/
theorem C8_counterexample :
    OpensS (fun _ => ReadRes.ioErr "read failed") 1 (some ⟨[]⟩, none) ∧
    ¬ ∃ e, OpensS (fun _ => ReadRes.ioErr "read failed") 1 (none, some e) := by
  have h1 : OpensS (fun _ => ReadRes.ioErr "read failed") 1 (some ⟨[]⟩, none) :=
    ⟨1, rfl⟩
  refine ⟨h1, ?_⟩
  rintro ⟨e, he⟩
  have h2 := opensS_unique h1 he
  simp at h2

/-- C8 amended: an I/O error while reading is treated exactly like end of
stream: `readChr` collapses both failures to the same result (only
`err ≠ nil` is tested), `get` behaves identically on an erroring stream
and on an exhausted one, and a stream failing from the first read parses
to the empty Document with no error; only the error from opening the file
is propagated. -/
theorem C8_io_error_as_eof (m : String) :
    (∀ p, readChr (fun _ => ReadRes.ioErr m) p = readChr (fun _ => ReadRes.eof) p) ∧
    (∀ gf p, get (fun _ => ReadRes.ioErr m) gf p = get (fun _ => ReadRes.eof) gf p) ∧
    OpensS (fun _ => ReadRes.ioErr m) 1 (some ⟨[]⟩, none) :=
  ⟨fun _ => rfl,
   fun gf p => by
     have h1 : get (fun _ => ReadRes.ioErr m) gf p = (none, p) := get_fail rfl
     have h2 : get (fun _ => ReadRes.eof) gf p = (none, p) := get_fail rfl
     rw [h1, h2],
   ⟨1, rfl⟩⟩

/-- C9: the empty section header `[]` is accepted: parsing does not fail, a
section named "" is created, key/value lines after it are stored under ""
and retrievable by Read; but because the COMMENT state decides its exit by
testing whether the current section name equals the empty string, a
comment line after `[]` routes back to START, so a following key/value
line fails with "key not in section". -/
theorem C9_empty_section (k v : List Char) (k0 : Char) (rest : List Char)
    (hk : keyCharsOK k) (hk0 : keyStartOK k) (hkne : k ≠ []) (hv : valueCharsOK v)
    (hc : k0 ≠ ' ' ∧ k0 ≠ '\t' ∧ k0 ≠ '\n' ∧ k0 ≠ '[' ∧ k0 ≠ '#' ∧ k0 ≠ ';' ∧
      k0 ≠ '\r') :
    Opens ('[' :: ']' :: '\n' :: k ++ '=' :: v ++ ['\n'])
      (some ⟨[("", [(⟨k⟩, ⟨v⟩)])]⟩, none) ∧
    Conf.Read ⟨[("", [(⟨k⟩, ⟨v⟩)])]⟩ "" ⟨k⟩ = (⟨v⟩, none) ∧
    Opens ('[' :: ']' :: '\n' :: '#' :: '\n' :: k0 :: rest)
      (none, some ("key not in section: " ++ ⟨']' :: '\n' :: '#' :: '\n' :: [k0]⟩)) := by
  refine ⟨?_, ?_, ?_⟩
  · have h := opens_single_kv_nl [] k v
      (fun c hcm => absurd hcm (List.not_mem_nil c)) hk hk0 hkne hv
    exact h
  · simp [Conf.Read, find2, find1]
  · set l : List Char := '[' :: ']' :: '\n' :: '#' :: '\n' :: k0 :: rest with hl
    have hgf : 1 ≤ l.length + 2 := by omega
    have hS0 : step (listStream l) (l.length + 2)
        (.stateStart, ⟨0, "", "", "", "", "", []⟩) =
        (.stateSection, ⟨1, "", "", "", "", "", []⟩) := by
      exact step_start_open rfl hgf
    have hS1 : step (listStream l) (l.length + 2)
        (.stateSection, ⟨1, "", "", "", "", "", []⟩) =
        (.stateMid, ⟨2, "", "", "", "", "]", [("", [])]⟩) := by
      exact step_section_close_new rfl rfl hgf
    have hS2 : step (listStream l) (l.length + 2)
        (.stateMid, ⟨2, "", "", "", "", "]", [("", [])]⟩) =
        (.stateMid, ⟨3, "", "", "", "", "]\n", [("", [])]⟩) := by
      exact step_mid_ws rfl (Or.inr (Or.inr rfl)) hgf
    have hS3 : step (listStream l) (l.length + 2)
        (.stateMid, ⟨3, "", "", "", "", "]\n", [("", [])]⟩) =
        (.stateComment, ⟨4, "", "", "", "", "]\n#", [("", [])]⟩) := by
      exact step_mid_comment rfl (Or.inl rfl) hgf
    have hS4 : step (listStream l) (l.length + 2)
        (.stateComment, ⟨4, "", "", "", "", "]\n#", [("", [])]⟩) =
        (.stateStart, ⟨5, "", "", "", "", "]\n#\n", [("", [])]⟩) := by
      exact step_comment_nl rfl hgf
    have hS5 : step (listStream l) (l.length + 2)
        (.stateStart, ⟨5, "", "", "", "", "]\n#\n", [("", [])]⟩) =
        (.stateError, ⟨6, "", "", "", "key not in section: " ++
          ⟨']' :: '\n' :: '#' :: '\n' :: [k0]⟩,
          ("]\n#\n" : String).push k0, [("", [])]⟩) := by
      exact step_start_err rfl hc hgf
    refine ⟨6, ?_⟩
    rw [show initState = (⟨0, "", "", "", "", "", []⟩ : LexState) from rfl]
    rw [show (6 : Nat) = 5 + 1 from rfl, run_succ, hS0]
    rw [show (5 : Nat) = 4 + 1 from rfl, run_succ, hS1]
    rw [show (4 : Nat) = 3 + 1 from rfl, run_succ, hS2]
    rw [show (3 : Nat) = 2 + 1 from rfl, run_succ, hS3]
    rw [show (2 : Nat) = 1 + 1 from rfl, run_succ, hS4]
    rw [run_one, hS5]
    rfl

theorem C9_witness :
    Opens ("[]\ny=2\n".data) (some ⟨[("", [("y", "2")])]⟩, none) ∧
    Conf.Read ⟨[("", [("y", "2")])]⟩ "" "y" = ("2", none) ∧
    Opens ("[]\n#\ny=2\n".data) (none, some "key not in section: ]\n#\ny") := by
  have h := C9_empty_section ['y'] ['2'] 'y' ['=', '2', '\n']
    (by decide) (by decide) (by decide) (by decide) (by decide)
  exact h

/-- C10: a key whose `=` is immediately followed by a newline or by end of
stream stores the empty string as its value; Read of that key returns
`("", nil)` while Read of an absent key returns `("", not-found error)` —
the two cases differ only in the error component, never in the returned
string. -/
theorem C10_empty_value (s k : List Char) (k' : String)
    (hs : sectionNameOK s) (hk : keyCharsOK k) (hk0 : keyStartOK k) (hkne : k ≠ [])
    (habs : find2 [(⟨s⟩, [(⟨k⟩, "")])] ⟨s⟩ k' = none) :
    Opens ('[' :: s ++ ']' :: '\n' :: k ++ '=' :: ['\n'])
      (some ⟨[(⟨s⟩, [(⟨k⟩, "")])]⟩, none) ∧
    Opens ('[' :: s ++ ']' :: '\n' :: k ++ ['='])
      (some ⟨[(⟨s⟩, [(⟨k⟩, "")])]⟩, none) ∧
    Conf.Read ⟨[(⟨s⟩, [(⟨k⟩, "")])]⟩ ⟨s⟩ ⟨k⟩ = ("", none) ∧
    Conf.Read ⟨[(⟨s⟩, [(⟨k⟩, "")])]⟩ ⟨s⟩ k' =
      ("", some "key or section does not exist") := by
  refine ⟨?_, ?_, ?_, ?_⟩
  · have h := opens_single_kv_nl s k [] hs hk hk0 hkne
      (fun c hcm => absurd hcm (List.not_mem_nil c))
    simpa [List.append_assoc] using h
  · have h := opens_single_kv_eof s k [] hs hk hk0 hkne
      (fun c hcm => absurd hcm (List.not_mem_nil c))
    simpa [List.append_assoc] using h
  · simp [Conf.Read, find2, find1]
  · simp [Conf.Read, habs]

theorem C10_witness :
    Opens ("[a]\nx=\n".data) (some ⟨[("a", [("x", "")])]⟩, none) ∧
    Opens ("[a]\nx=".data) (some ⟨[("a", [("x", "")])]⟩, none) ∧
    Conf.Read ⟨[("a", [("x", "")])]⟩ "a" "x" = ("", none) ∧
    Conf.Read ⟨[("a", [("x", "")])]⟩ "a" "y" =
      ("", some "key or section does not exist") := by
  have h := C10_empty_value ['a'] ['x'] "y"
    (by decide) (by decide) (by decide) (by decide) (by decide)
  exact h

end conf
